import Mathlib

/-!
# Verification of the WFM Scanner persistence-and-governance layer

Shallow embedding of the repository's core:
* `ResultsDatabase` (src/src/database/resultsDatabase.js): sessions, results and
  progress tables modelled as lists of rows; each database method becomes a pure
  function on the `DB` state.  JS `Date` timestamps are modelled as `Int`
  milliseconds; SQLite `NULL` as `Option`; the JSON `TEXT` columns store the
  parsed JSON value (an injective encoding of the stored text).
* `RateLimiter` (src/unnamed/part_001): explicit state passing over the
  per-channel call-timestamp map.
* `IPCValidator` (src/unnamed/part_000): schema validation over a JSON value
  type, plus a model of Node's posix `path.normalize` / `path.resolve` /
  `path.extname` used by the file-path validators.
-/

/-- JSON-style JavaScript values, as far as the validator and the serialized
result payloads need them.  `nullv` stands for JS `null`. -/
inductive JValue where
  | str (s : String)
  | num (n : Int)
  | bool (b : Bool)
  | nullv
  | arr (items : List JValue)
  | obj (fields : List (String × JValue))

/-- JS truthiness on the modelled values (`false`, `0`, `""`, `null` are falsy;
arrays and objects are always truthy). -/
def jsTruthy : JValue → Bool
  | .str s => s ≠ ""
  | .num n => n ≠ 0
  | .bool b => b
  | .nullv => false
  | .arr _ => true
  | .obj _ => true

namespace RateLimiter

/-- One entry of the limiter's `limits` table: ceiling and sliding window. -/
structure LimitCfg where
  maxCalls : Nat
  windowMs : Int
  deriving DecidableEq

/-- The `limits` table fixed in the `RateLimiter` constructor
(src/unnamed/part_001 lines 3-8). -/
def defaultLimits : String → Option LimitCfg := fun channel =>
  if channel = "start-scan" then some ⟨1, 60000⟩
  else if channel = "stop-scan" then some ⟨10, 60000⟩
  else if channel = "export-results" then some ⟨5, 60000⟩
  else if channel = "save-config" then some ⟨20, 60000⟩
  else none

/-- The limiter's mutable `calls` map: channel name → recorded call
timestamps (ms). -/
structure RLState where
  calls : List (String × List Int)
  deriving DecidableEq

/-- `this.calls.get(key)`, with the missing-key case collapsed to `[]`
(the code inserts `[]` for a missing key before reading). -/
def getCalls (st : RLState) (channel : String) : List Int :=
  (st.calls.lookup channel).getD []

/-- `this.calls.set(key, v)`. -/
def setCalls (st : RLState) (channel : String) (v : List Int) : RLState :=
  ⟨(channel, v) :: st.calls.filter (fun p => ¬ p.1 = channel)⟩

/-- `Math.min(...validCalls)` (junk value 0 on `[]`; the code only evaluates it
on a list of length ≥ maxCalls ≥ 1 for the declared limits). -/
def jsMinList : List Int → Int
  | [] => 0
  | t :: ts => ts.foldl min t

/-- Outcome of `checkLimit`: return `true`, or throw the rate-limit error
carrying the computed retry-after seconds. -/
inductive CheckResult where
  | allow
  | reject (retryAfterSec : Int)
  deriving DecidableEq

/-- `RateLimiter.checkLimit(channel)` (src/unnamed/part_001 lines 13-40),
with the clock `now` passed explicitly.  `Math.ceil(x / 1000)` on integer `x`
is `(x + 999) / 1000` in floor (Euclidean) integer division. -/
def checkLimit (limits : String → Option LimitCfg) (st : RLState) (now : Int)
    (channel : String) : RLState × CheckResult :=
  match limits channel with
  | none => (st, .allow)
  | some limit =>
    let calls := getCalls st channel
    let validCalls := calls.filter (fun time => now - time < limit.windowMs)
    if limit.maxCalls ≤ validCalls.length then
      let oldestCall := jsMinList validCalls
      let resetTime := (limit.windowMs - (now - oldestCall) + 999) / 1000
      (setCalls st channel validCalls, .reject resetTime)
    else
      (setCalls st channel (validCalls ++ [now]), .allow)

/-- Run a sequence of `checkLimit` calls on one channel at the given instants,
threading the state. -/
def runChecks (limits : String → Option LimitCfg) (st : RLState) (channel : String) :
    List Int → RLState × List CheckResult
  | [] => (st, [])
  | t :: ts =>
    let step := checkLimit limits st t channel
    let rest := runChecks limits step.1 channel ts
    (rest.1, step.2 :: rest.2)

end RateLimiter

namespace IPCValidator

/-! ## Node `path` (posix) model

`path.normalize`, `path.resolve` and `path.extname` as used by
`IPCValidator.validateFilePath` / `validateExportPath`
(src/unnamed/part_000 lines 121-181).  Posix separators only; trailing-slash
preservation is not modelled (no validator input depends on it). -/

/-- Does `pre` occur as a prefix of `l`? -/
def listStartsWith : List Char → List Char → Bool
  | [], _ => true
  | _ :: _, [] => false
  | p :: ps, c :: cs => p = c && listStartsWith ps cs

/-- Substring occurrence, `String.includes` of JS (via the char lists). -/
def listHasSub (sub : List Char) : List Char → Bool
  | [] => sub.isEmpty
  | c :: rest => listStartsWith sub (c :: rest) || listHasSub sub rest

/-- JS `s.includes(pat)`. -/
def strIncludes (s pat : String) : Bool :=
  listHasSub pat.data s.data

/-- JS `s.startsWith(pre)`. -/
def strStartsWith (s pre : String) : Bool :=
  listStartsWith pre.data s.data

/-- JS `s.toLowerCase()` (ASCII suffices for the extension strings). -/
def lowerStr (s : String) : String :=
  ⟨s.data.map Char.toLower⟩

/-- Split a character list on `/`. -/
def splitOnSlash : List Char → List (List Char)
  | [] => [[]]
  | c :: rest =>
    if c = '/' then [] :: splitOnSlash rest
    else
      match splitOnSlash rest with
      | [] => [[c]]
      | seg :: segs => (c :: seg) :: segs

/-- Is the path absolute (leading `/`)? -/
def isAbsPath (p : String) : Bool :=
  match p.data with
  | '/' :: _ => true
  | _ => false

/-- Split a path on `/` and drop empty and `.` segments. -/
def splitSegs (p : String) : List (List Char) :=
  (splitOnSlash p.data).filter (fun s => ¬ s = [] ∧ ¬ s = ['.'])

/-- Process `..` segments the way `path.posix.normalize` does: pop the previous
segment, keep a leading `..` chain for relative paths, drop `..` at the root of
absolute paths.  `acc` holds the already-processed segments reversed. -/
def normSegs (isAbs : Bool) (acc : List (List Char)) :
    List (List Char) → List (List Char)
  | [] => acc.reverse
  | seg :: rest =>
    if seg = ['.', '.'] then
      match acc with
      | top :: accRest =>
        if top = ['.', '.'] then normSegs isAbs (seg :: top :: accRest) rest
        else normSegs isAbs accRest rest
      | [] => if isAbs then normSegs isAbs [] rest else normSegs isAbs [seg] rest
    else normSegs isAbs (seg :: acc) rest

/-- Join segments with `/`. -/
def intercalateSlash : List (List Char) → List Char
  | [] => []
  | [s] => s
  | s :: rest => s ++ '/' :: intercalateSlash rest

/-- `path.normalize` (posix). -/
def pathNormalize (p : String) : String :=
  let isAbs := isAbsPath p
  let core := intercalateSlash (normSegs isAbs [] (splitSegs p))
  if isAbs then ⟨'/' :: core⟩
  else if core = [] then "." else ⟨core⟩

/-- `path.resolve` on a single argument, with the process working directory
(assumed absolute) passed explicitly. -/
def pathResolve (cwd p : String) : String :=
  if isAbsPath p then pathNormalize p
  else pathNormalize (cwd ++ "/" ++ p)

/-- The suffix starting at the last `.` of the list, if any. -/
def lastDotSplit : List Char → Option (List Char)
  | [] => none
  | c :: rest =>
    match lastDotSplit rest with
    | some suf => some suf
    | none => if c = '.' then some (c :: rest) else none

/-- `path.extname`: the suffix of the last path component from its last `.`;
empty when there is no dot or only the leading dot of a dotfile. -/
def pathExtname (p : String) : String :=
  match (splitOnSlash p.data).getLastD [] with
  | [] => ""
  | _ :: brest =>
    match lastDotSplit brest with
    | some suf => ⟨suf⟩
    | none => ""

/-- The Electron `app.getPath` values and the working directory, which the
validators read from the environment. -/
structure PathEnv where
  cwd : String
  userData : String
  documents : String
  downloads : String
  desktop : String

/-- Allow-list used by `validateFilePath` (userData, documents, downloads,
desktop). -/
def fileAllowedDirs (env : PathEnv) : List String :=
  [env.userData, env.documents, env.downloads, env.desktop]

/-- Allow-list used by `validateExportPath` (documents, downloads, desktop). -/
def exportAllowedDirs (env : PathEnv) : List String :=
  [env.documents, env.downloads, env.desktop]

/-- `IPCValidator.validateFilePath(filePath, allowedExtensions)`
(src/unnamed/part_000 lines 121-151): extension check, then the `..` substring
check on the normalized path, then the string-prefix check against the resolved
allow-listed directories. -/
def validateFilePath (env : PathEnv) (filePath : String)
    (allowedExtensions : List String) : Except String Bool :=
  let normalized := pathNormalize filePath
  let resolved := pathResolve env.cwd normalized
  let ext := lowerStr (pathExtname resolved)
  if ¬ allowedExtensions.contains ext then
    .error "Invalid file extension"
  else if strIncludes normalized ".." then
    .error "Path traversal detected"
  else if (fileAllowedDirs env).any
      (fun dir => strStartsWith resolved (pathResolve env.cwd dir)) then
    .ok true
  else
    .error "File must be in an allowed directory (Documents, Downloads, Desktop, or App Data)"

/-- `IPCValidator.validateExportPath(exportPath)`
(src/unnamed/part_000 lines 153-181): extension locked to `.xlsx`, same
traversal and directory-prefix checks over the user-visible directories. -/
def validateExportPath (env : PathEnv) (exportPath : String) : Except String Bool :=
  let normalized := pathNormalize exportPath
  let resolved := pathResolve env.cwd normalized
  let ext := lowerStr (pathExtname resolved)
  if ¬ ext = ".xlsx" then
    .error "Export file must have .xlsx extension"
  else if strIncludes normalized ".." then
    .error "Path traversal detected"
  else if (exportAllowedDirs env).any
      (fun dir => strStartsWith resolved (pathResolve env.cwd dir)) then
    .ok true
  else
    .error "Export file must be in Documents, Downloads, or Desktop"

/-- Is the Except an error? -/
def isErr {ε α : Type} : Except ε α → Bool
  | .error _ => true
  | .ok _ => false

/-- Does the raw path contain a parent-directory traversal segment (a `..`
path component)? -/
def hasTraversalSegment (p : String) : Bool :=
  (splitOnSlash p.data).contains ['.', '.']

/-- Is the resolved location of `p` inside the directory subtree rooted at
`dir` (the directory itself or a proper descendant)? -/
def underDir (env : PathEnv) (dir p : String) : Bool :=
  let d := pathResolve env.cwd dir
  let r := pathResolve env.cwd p
  r = d || strStartsWith r (d ++ "/")

end IPCValidator

namespace ResultsDatabase

/-! ## The relational state (`createTables`, src/src/database/resultsDatabase.js
lines 26-92)

Timestamps are `Int` milliseconds; `DATETIME DEFAULT CURRENT_TIMESTAMP` becomes
an explicit `now` parameter on the operations that trigger it.  Nullable
columns are `Option`; the four serialized-JSON `TEXT` columns store the parsed
`JValue` (JSON serialization is injective, so the stored text is represented by
its value; a SQL `NULL` in those columns is `none`). -/

/-- One row of `scan_sessions`. -/
structure Session where
  id : String
  started_at : Int
  completed_at : Option Int
  total_items : Int
  processed_items : Int
  success_count : Int
  failed_count : Int
  status : String
  deriving DecidableEq

/-- One row of `scan_results` (the autoincrement `id` is kept implicitly as the
row's position; no claim depends on its value). -/
structure ResultRow where
  session_id : String
  store : Option String
  asin : Option String
  success : Nat
  extracted_name : Option String
  name : Option String
  price : Option String
  image_url : Option String
  product_url : Option String
  load_time : Option Int
  error_message : Option String
  retry_count : Int
  variations : Option JValue
  bundle_parts : Option JValue
  extraction_details : Option JValue
  merchandising_data : Option JValue

/-- One row of `scan_progress`. -/
structure ProgressRow where
  session_id : String
  current_store : Option String
  current_item : Option Int
  total_items : Option Int
  last_updated : Int
  deriving DecidableEq

/-- The whole database state. -/
structure DB where
  sessions : List Session
  results : List ResultRow
  progress : List ProgressRow

/-- The argument object of `insertResult` : the fields the method reads from
`result`.  `none` models an absent (or `null`/`undefined`) field, which the
SQLite driver binds as `NULL`.  `success` is an arbitrary JS value that the
code coerces (`result.success ? 1 : 0`); the payload fields are typed per the
data model (lists for `variations`/`bundleParts`, maps for the two detail
objects). -/
structure ResultInput where
  store : Option String
  asin : Option String
  success : JValue
  extractedName : Option String
  name : Option String
  price : Option String
  imageUrl : Option String
  productUrl : Option String
  loadTime : Option Int
  errorMessage : Option String
  retryCount : Option Int
  variations : Option (List JValue)
  bundleParts : Option (List JValue)
  extractionDetails : Option (List (String × JValue))
  merchandisingData : Option (List (String × JValue))

/-- The row that `insertResult` binds (lines 107-141): `result.success ? 1 : 0`,
`result.retryCount || 0`, and `JSON.stringify(result.variations || [])` etc.
(`|| []` / `|| {}` is `Option.getD` on the typed payload fields). -/
def mkResultRow (sessionId : String) (r : ResultInput) : ResultRow :=
  { session_id := sessionId
    store := r.store
    asin := r.asin
    success := if jsTruthy r.success then 1 else 0
    extracted_name := r.extractedName
    name := r.name
    price := r.price
    image_url := r.imageUrl
    product_url := r.productUrl
    load_time := r.loadTime
    error_message := r.errorMessage
    retry_count := r.retryCount.getD 0
    variations := some (.arr (r.variations.getD []))
    bundle_parts := some (.arr (r.bundleParts.getD []))
    extraction_details := some (.obj (r.extractionDetails.getD []))
    merchandising_data := some (.obj (r.merchandisingData.getD [])) }

/-- Does the `scan_results` INSERT succeed?  `store` and `asin` are
`NOT NULL` columns, so binding `NULL` there makes the statement fail with a
constraint error; all other bound columns are nullable. -/
def insertOk (r : ResultInput) : Bool :=
  r.store.isSome && r.asin.isSome

/-- `insertResult(sessionId, result)` (lines 107-141): one INSERT, resolving
with the new row id or rejecting with the constraint error. -/
def insertResult (db : DB) (sessionId : String) (r : ResultInput) :
    Except String (DB × Nat) :=
  if insertOk r then
    .ok ({ db with results := db.results ++ [mkResultRow sessionId r] },
         db.results.length + 1)
  else
    .error "NOT NULL constraint failed"

/-- How an `insertBatch` promise settles. -/
inductive BatchOutcome where
  | hangs
  | resolved (inserted : Nat) (errorCount : Nat)
  | rejected (msg : String)
  deriving DecidableEq

/-- `insertBatch(sessionId, results)` (lines 143-174).  Under `db.serialize`,
`BEGIN` and the per-result INSERTs are queued in order and their callbacks fire
in the same order, so `completed === results.length` first becomes true in the
callback of the *last* INSERT; that callback's branch decides between `COMMIT`
(resolving `{inserted, errors}`) and `ROLLBACK` (rejecting with the batch
error).  A failed INSERT does not abort the SQLite transaction, so on `COMMIT`
every *successful* INSERT of the batch is persisted.  An empty batch never
settles (the loop body never runs). -/
def insertBatch (db : DB) (sessionId : String) (results : List ResultInput) :
    DB × BatchOutcome :=
  match results.getLast? with
  | none => (db, .hangs)
  | some lastR =>
    let errors := results.countP (fun r => ¬ insertOk r)
    if insertOk lastR then
      ({ db with results :=
           db.results ++ (results.filter insertOk).map (mkResultRow sessionId) },
       .resolved results.length errors)
    else
      (db, .rejected ("Batch insert failed: " ++ toString errors ++ " errors"))

/-- `getResultCount(sessionId)` (lines 176-187). -/
def getResultCount (db : DB) (sessionId : String) : Nat :=
  db.results.countP (fun r => r.session_id = sessionId)

/-- The object `deserializeResult` returns: the row spread plus the coerced
`success` and the four rehydrated payloads. -/
structure DeserializedResult where
  row : ResultRow
  success : Bool
  variations : JValue
  bundleParts : JValue
  extractionDetails : JValue
  merchandisingData : JValue

/-- `deserializeResult(row)` (lines 273-282): `Boolean(row.success)`, and
`row.variations ? JSON.parse(row.variations) : []` etc. — a `NULL` column
falls back to `[]` / `{}`, otherwise the stored JSON value is returned. -/
def deserializeResult (row : ResultRow) : DeserializedResult :=
  { row := row
    success := row.success ≠ 0
    variations := row.variations.getD (.arr [])
    bundleParts := row.bundle_parts.getD (.arr [])
    extractionDetails := row.extraction_details.getD (.obj [])
    merchandisingData := row.merchandising_data.getD (.obj []) }

/-- `completeSession(sessionId)` (lines 258-271): UPDATE setting
`completed_at = CURRENT_TIMESTAMP, status = 'completed'` on the matching row. -/
def completeSession (db : DB) (sessionId : String) (now : Int) : DB :=
  { db with sessions := db.sessions.map (fun s =>
      if s.id = sessionId then { s with completed_at := some now, status := "completed" }
      else s) }

/-- Counts returned by the cleanup operations. -/
structure CleanupReport where
  deletedSessions : Nat
  deletedResults : Nat
  deriving DecidableEq

/-- One day in milliseconds (`cutoffDate.setDate(getDate() - daysToKeep)`). -/
def dayMs : Int := 86400000

/-- `cleanupOldSessions(daysToKeep)` (lines 290-352): cutoff = now − days;
DELETE results whose session is older than the cutoff, then such progress
rows, then the sessions themselves; returns both counts. -/
def cleanupOldSessions (db : DB) (now : Int) (daysToKeep : Int) :
    DB × CleanupReport :=
  let cutoff := now - daysToKeep * dayMs
  let oldIds := (db.sessions.filter (fun s => s.started_at < cutoff)).map (·.id)
  let deletedResults := db.results.countP (fun r => r.session_id ∈ oldIds)
  let deletedSessions := db.sessions.countP (fun s => s.started_at < cutoff)
  ({ sessions := db.sessions.filter (fun s => ¬ s.started_at < cutoff)
     results := db.results.filter (fun r => ¬ r.session_id ∈ oldIds)
     progress := db.progress.filter (fun p => ¬ p.session_id ∈ oldIds) },
   ⟨deletedSessions, deletedResults⟩)

/-- Insert into a list sorted by `started_at` descending. -/
def insertByStart (s : Session) : List Session → List Session
  | [] => [s]
  | t :: ts =>
    if t.started_at ≤ s.started_at then s :: t :: ts
    else t :: insertByStart s ts

/-- `ORDER BY started_at DESC` (one concrete order among the tie-equivalent
ones SQLite may produce). -/
def sortByStartDesc : List Session → List Session
  | [] => []
  | s :: ss => insertByStart s (sortByStartDesc ss)

/-- `keepLatestScans(count)` (lines 359-442): the boundary session is row
`count - 1` of the sessions ordered newest-first (`LIMIT 1 OFFSET count - 1`;
SQLite clamps a negative OFFSET to 0, matching the truncated `Nat`
subtraction); with no boundary row the call is a no-op; otherwise results,
progress and sessions strictly older than the boundary's start are deleted. -/
def keepLatestScans (db : DB) (count : Nat) : DB × CleanupReport :=
  match (sortByStartDesc db.sessions).get? (count - 1) with
  | none => (db, ⟨0, 0⟩)
  | some boundary =>
    let cutTs := boundary.started_at
    let oldIds := (db.sessions.filter (fun s => s.started_at < cutTs)).map (·.id)
    let deletedResults := db.results.countP (fun r => r.session_id ∈ oldIds)
    let deletedSessions := db.sessions.countP (fun s => s.started_at < cutTs)
    ({ sessions := db.sessions.filter (fun s => ¬ s.started_at < cutTs)
       results := db.results.filter (fun r => ¬ r.session_id ∈ oldIds)
       progress := db.progress.filter (fun p => ¬ p.session_id ∈ oldIds) },
     ⟨deletedSessions, deletedResults⟩)

/-- `deleteSession(sessionId)` (lines 449-503): DELETE the session's results,
its progress row, then the session row; resolves with the deleted-result
count whether or not the session existed. -/
def deleteSession (db : DB) (sessionId : String) : DB × Nat :=
  ({ sessions := db.sessions.filter (fun s => ¬ s.id = sessionId)
     results := db.results.filter (fun r => ¬ r.session_id = sessionId)
     progress := db.progress.filter (fun p => ¬ p.session_id = sessionId) },
   db.results.countP (fun r => r.session_id = sessionId))

end ResultsDatabase

namespace IPCValidator

/-! ## `IPCValidator.validateObject` (src/unnamed/part_000 lines 57-119) -/

/-- JS `typeof` on the modelled values (`typeof null` and arrays/objects are
all `"object"`). -/
def typeofJ : JValue → String
  | .str _ => "string"
  | .num _ => "number"
  | .bool _ => "boolean"
  | .nullv => "object"
  | .arr _ => "object"
  | .obj _ => "object"

/-- `obj[key]` on a payload object (first binding wins; JS object keys are
unique). -/
def jLookup : List (String × JValue) → String → Option JValue
  | [], _ => none
  | (k, v) :: rest, key => if k = key then some v else jLookup rest key

/-- `obj[key]`, collapsing JS `null` into absence: the code treats
`value === undefined || value === null` identically. -/
def jGet (obj : List (String × JValue)) (key : String) : Option JValue :=
  match jLookup obj key with
  | some .nullv => none
  | x => x

/-- `value.length` when the value is a string (only read after the string type
check has passed). -/
def jStrLen : JValue → Nat
  | .str s => s.length
  | _ => 0

/-- The numeric value (only read after the number type check has passed). -/
def jNumVal : JValue → Int
  | .num n => n
  | _ => 0

/-- A schema: the ordered `Object.entries` of the rules map.  Each entry
carries the rule object's fields: `type`, `required`, `maxLength` (JS-truthy
check, so `some 0` behaves like no bound), `min`/`max`, the nested
`properties` sub-schema (`hasProps` models its presence), and the custom
`validate` callback (`Except.error` models the callback throwing;
`.ok false` a non-`true`, non-`undefined` return). -/
inductive Schema where
  | nil
  | cons (key : String) (type : String) (required : Bool)
      (maxLength : Option Nat) (minB maxB : Option Int)
      (hasProps : Bool) (props : Schema)
      (custom : Option (JValue → Except String Bool))
      (rest : Schema)

/-- The type / string-length / numeric-bound checks of `validateObject`
(lines 73-99), returning the thrown message if any. -/
def fieldChecks (key type : String) (maxLength : Option Nat)
    (minB maxB : Option Int) (value : JValue) : Option String :=
  if type = "object" ∧ ¬ typeofJ value = "object" then
    some ("Field " ++ key ++ " must be an object")
  else if type = "string" ∧ ¬ typeofJ value = "string" then
    some ("Field " ++ key ++ " must be a string")
  else if type = "number" ∧ ¬ typeofJ value = "number" then
    some ("Field " ++ key ++ " must be a number")
  else if type = "boolean" ∧ ¬ typeofJ value = "boolean" then
    some ("Field " ++ key ++ " must be a boolean")
  else if type = "string" ∧ maxLength.any (fun m => ¬ m = 0 ∧ jStrLen value > m) then
    some ("Field " ++ key ++ " exceeds maximum length")
  else if type = "number" ∧ minB.any (fun mn => jNumVal value < mn) then
    some ("Field " ++ key ++ " must be at least the minimum")
  else if type = "number" ∧ maxB.any (fun mx => mx < jNumVal value) then
    some ("Field " ++ key ++ " must be at most the maximum")
  else none

/-- The custom `validate` call (lines 107-113): an exception from the callback
propagates; a return value other than `true`/`undefined` is wrapped in
`Validation failed for key`. -/
def runCustom (key : String) (custom : Option (JValue → Except String Bool))
    (value : JValue) : Option String :=
  match custom with
  | none => none
  | some f =>
    match f value with
    | .error e => some e
    | .ok true => none
    | .ok false => some ("Validation failed for " ++ key)

/-- `IPCValidator.validateObject(obj, schema)` (lines 57-119): walk the schema
entries in order; missing required field throws, optional absent field is
skipped, the field checks run, a `type: 'object'` entry with `properties`
recurses (and skips the custom callback, as the code `continue`s), otherwise
the custom callback runs and the raw value is kept.  Only schema keys are ever
written into the returned object. -/
def validateObject (obj : List (String × JValue)) :
    Schema → Except String (List (String × JValue))
  | .nil => .ok []
  | .cons key type required maxLength minB maxB hasProps props custom rest =>
    match jGet obj key with
    | none =>
      if required then .error ("Missing required field: " ++ key)
      else validateObject obj rest
    | some value =>
      match fieldChecks key type maxLength minB maxB value with
      | some e => .error e
      | none =>
        if type = "object" ∧ hasProps then
          match value with
          | .obj fields =>
            match validateObject fields props with
            | .error e => .error e
            | .ok sub =>
              match validateObject obj rest with
              | .error e => .error e
              | .ok out => .ok ((key, .obj sub) :: out)
          | _ => .error ("Field " ++ key ++ " must be an object")
        else
          match runCustom key custom value with
          | some e => .error e
          | none =>
            match validateObject obj rest with
            | .error e => .error e
            | .ok out => .ok ((key, value) :: out)

/-- Is `k` one of the schema's declared field names? -/
def schemaHasKey : Schema → String → Bool
  | .nil, _ => false
  | .cons key _ _ _ _ _ _ _ _ rest, k => k = key || schemaHasKey rest k

end IPCValidator

namespace RateLimiter

/-- The behaviour `checkLimit` exhibits for a channel whose limit entry is
`cfg`: below the ceiling the current timestamp is appended and the call is
allowed; at or above the ceiling the call fails with a retry-after of at most
the window length in seconds, after the stale timestamps have been discarded
in both cases. -/
def checkLimitSpec (ch : String) (cfg : LimitCfg) (st : RLState) (now : Int) : Prop :=
  (((getCalls st ch).filter (fun t => now - t < cfg.windowMs)).length < cfg.maxCalls →
    checkLimit defaultLimits st now ch =
      (setCalls st ch (((getCalls st ch).filter (fun t => now - t < cfg.windowMs)) ++ [now]),
       .allow)) ∧
  (cfg.maxCalls ≤ ((getCalls st ch).filter (fun t => now - t < cfg.windowMs)).length →
    ∃ retry,
      checkLimit defaultLimits st now ch =
        (setCalls st ch ((getCalls st ch).filter (fun t => now - t < cfg.windowMs)),
         .reject retry) ∧
      0 < retry ∧ retry ≤ cfg.windowMs / 1000)

/-- The spec's concrete scenario for ceiling 1 / window 60 s: from a fresh
state, a call at `t0` is allowed, a second call at `t1` within the window is
rejected with a positive retry-after of at most 60 s, and a call at `t2` after
the window has elapsed is allowed again. -/
def scanScenario (t0 t1 t2 : Int) : Prop :=
  (checkLimit defaultLimits ⟨[]⟩ t0 "start-scan").2 = .allow ∧
  (∃ retry,
    (checkLimit defaultLimits (checkLimit defaultLimits ⟨[]⟩ t0 "start-scan").1
        t1 "start-scan").2 = .reject retry ∧ 0 < retry ∧ retry ≤ 60) ∧
  (checkLimit defaultLimits
      (checkLimit defaultLimits (checkLimit defaultLimits ⟨[]⟩ t0 "start-scan").1
        t1 "start-scan").1 t2 "start-scan").2 = .allow

end RateLimiter

namespace ResultsDatabase

/-! ## Concrete fixtures used by the witness and counterexample theorems -/

/-- A freshly created running session. -/
def sessionS1 : Session :=
  { id := "S1", started_at := 0, completed_at := none, total_items := 5
    processed_items := 0, success_count := 0, failed_count := 0, status := "running" }

/-- A well-formed `insertResult` argument. -/
def sampleInput : ResultInput :=
  { store := some "ABC", asin := some "B000000001", success := .bool true
    extractedName := none, name := some "Widget", price := some "$1.99"
    imageUrl := none, productUrl := none, loadTime := some 120
    errorMessage := none, retryCount := none
    variations := none, bundleParts := none
    extractionDetails := none, merchandisingData := none }

/-- A malformed `insertResult` argument: a `NULL` `store` violates the
`NOT NULL` constraint. -/
def badInput : ResultInput :=
  { sampleInput with store := none }

/-- Database with one running session and no rows, for the batch-insert
counterexample. -/
def dbC1 : DB := ⟨[sessionS1], [], []⟩

/-- Database with two result rows for `S1`, one for `S2`, and a progress row,
for the deletion witness. -/
def dbC4 : DB :=
  ⟨[sessionS1, { sessionS1 with id := "S2" }],
   [mkResultRow "S1" sampleInput, mkResultRow "S1" badInput, mkResultRow "S2" sampleInput],
   [⟨"S1", some "ABC", some 1, some 5, 0⟩]⟩

/-- An old session (started a long time before the cleanup cutoff). -/
def oldSession : Session := { sessionS1 with id := "OLD", started_at := 0 }

/-- A recent session. -/
def newSession : Session := { sessionS1 with id := "NEW", started_at := 999999999 }

/-- A result row belonging to the old session. -/
def rowOld : ResultRow := mkResultRow "OLD" sampleInput

/-- Database mixing an old and a recent session with their rows, for the
cleanup witness. -/
def dbC2 : DB :=
  ⟨[oldSession, newSession],
   [rowOld, mkResultRow "NEW" sampleInput],
   [⟨"OLD", none, none, none, 0⟩, ⟨"NEW", none, none, none, 999999999⟩]⟩

/-- Three sessions sharing one start timestamp: the tie case of
`keepLatestScans`. -/
def dbTies : DB :=
  ⟨[{ sessionS1 with id := "A", started_at := 500 },
    { sessionS1 with id := "B", started_at := 500 },
    { sessionS1 with id := "C", started_at := 500 }], [], []⟩

/-- Three sessions with pairwise-distinct start timestamps. -/
def dbDistinct : DB :=
  ⟨[{ sessionS1 with id := "A", started_at := 100 },
    { sessionS1 with id := "B", started_at := 200 },
    { sessionS1 with id := "C", started_at := 300 }], [], []⟩

/-- The most recent session of `dbDistinct`. -/
def sessC : Session := { sessionS1 with id := "C", started_at := 300 }

end ResultsDatabase

namespace IPCValidator

/-- A concrete environment for the path-validator theorems. -/
def envC6 : PathEnv :=
  { cwd := "/home/u", userData := "/home/u/.config/app"
    documents := "/home/u/Documents", downloads := "/home/u/Downloads"
    desktop := "/home/u/Desktop" }

/-- A one-field schema (`a : number`, required), for the allow-list witness. -/
def exampleSchema : Schema :=
  .cons "a" "number" true none none none false .nil none .nil

end IPCValidator

open RateLimiter ResultsDatabase IPCValidator

/-! ## Shared list lemmas -/

/-- Counting a predicate and its negation partitions the length. -/
theorem countP_add_countP_not {α : Type} (p : α → Prop) [DecidablePred p] (l : List α) :
    l.countP (fun a => p a) + l.countP (fun a => ¬ p a) = l.length := by
  induction l with
  | nil => rfl
  | cons a t ih =>
    rw [List.countP_cons, List.countP_cons, List.length_cons]
    by_cases h : p a
    · have h1 : decide (p a) = true := decide_eq_true h
      have h2 : decide (¬ p a) = false := by simp [h]
      rw [h1, h2, if_pos rfl, if_neg (by decide)]
      omega
    · have h1 : decide (p a) = false := decide_eq_false h
      have h2 : decide (¬ p a) = true := decide_eq_true h
      rw [h1, h2, if_pos rfl, if_neg (by decide)]
      omega

/-! ## C9 : insertResult / deserializeResult round trip -/

/-- **C9**: a row written by `insertResult` and read back through
`deserializeResult` yields `success` as the boolean coercion of the input's
success flag, and yields the four variable-shaped payloads equal to the
supplied fields, or to the empty list (variations, bundle parts) and the empty
map (extraction details, merchandising data) when absent (`Option.getD`
states both cases at once). -/
theorem claim_C9_roundtrip (sessionId : String) (r : ResultInput) :
    (deserializeResult (mkResultRow sessionId r)).success = jsTruthy r.success ∧
    (deserializeResult (mkResultRow sessionId r)).variations = .arr (r.variations.getD []) ∧
    (deserializeResult (mkResultRow sessionId r)).bundleParts = .arr (r.bundleParts.getD []) ∧
    (deserializeResult (mkResultRow sessionId r)).extractionDetails
        = .obj (r.extractionDetails.getD []) ∧
    (deserializeResult (mkResultRow sessionId r)).merchandisingData
        = .obj (r.merchandisingData.getD []) := by
  refine ⟨?_, rfl, rfl, rfl, rfl⟩
  cases h : jsTruthy r.success <;> simp [deserializeResult, mkResultRow, h]

/-! ## C1 : insertBatch all-or-nothing -/

/-- **C1** (claim is false of the code): with a batch whose first insert fails
and whose last succeeds, `insertBatch` COMMITs the successful row and resolves
(`{inserted: 2, errors: [...]}`), so a failing batch neither fails the call
nor leaves the session's committed result count unchanged: it grows from 0
to 1. -/
theorem claim_C1_theorem :
    insertOk badInput = false ∧
    (insertBatch dbC1 "S1" [badInput, sampleInput]).2 = .resolved 2 1 ∧
    getResultCount dbC1 "S1" = 0 ∧
    getResultCount (insertBatch dbC1 "S1" [badInput, sampleInput]).1 "S1" = 1 := by
  refine ⟨rfl, ?_, rfl, ?_⟩ <;> rfl

/-! ## C8 : completeSession idempotence -/

/-- **C8** counterexample: a second `completeSession` at a later clock instant
overwrites the completion timestamp (`completed_at = CURRENT_TIMESTAMP` runs
again), so the timestamp is not set once and the second call is not a no-op. -/
theorem claim_C8_counterexample :
    (completeSession (completeSession ⟨[sessionS1], [], []⟩ "S1" 1000) "S1" 2000).sessions ≠
      (completeSession (⟨[sessionS1], [], []⟩ : DB) "S1" 1000).sessions ∧
    ((completeSession (completeSession ⟨[sessionS1], [], []⟩ "S1" 1000) "S1" 2000).sessions.map
        (fun s => s.completed_at)) = [some 2000] := by
  constructor <;> decide

/-- **C8** amended: a second `completeSession` call still leaves the status
`completed`, but it overwrites the completion timestamp with the time of the
second call; it is a no-op only when the two calls carry the same
`CURRENT_TIMESTAMP`. -/
theorem claim_C8_amended (db : DB) (sid : String) (t1 t2 : Int) :
    (∀ s ∈ (completeSession (completeSession db sid t1) sid t2).sessions,
        s.id = sid → s.status = "completed" ∧ s.completed_at = some t2) ∧
    (t2 = t1 → completeSession (completeSession db sid t1) sid t2 = completeSession db sid t1) := by
  constructor
  · intro s hs hid
    simp only [completeSession, List.map_map, List.mem_map] at hs
    obtain ⟨a, _, ha⟩ := hs
    by_cases h : a.id = sid
    · subst ha
      simp [Function.comp, h]
    · exfalso
      subst ha
      simp [Function.comp, h] at hid
  · intro h
    subst h
    simp only [completeSession, List.map_map]
    congr 1
    apply List.map_congr_left
    intro a _
    by_cases h : a.id = sid <;> simp [Function.comp, h]

/-- **C8** witness: the amended theorem applied to a concrete database and the
concrete twice-completed session. -/
theorem claim_C8_witness :
    ({ sessionS1 with completed_at := some 2000, status := "completed" } : Session).status
        = "completed" ∧
    ({ sessionS1 with completed_at := some 2000, status := "completed" } : Session).completed_at
        = some 2000 :=
  (claim_C8_amended ⟨[sessionS1], [], []⟩ "S1" 1000 2000).1
    { sessionS1 with completed_at := some 2000, status := "completed" } (by decide) (by decide)

/-! ## C4 : deleteSession -/

/-- `countP` of a predicate over the list filtered by its negation is zero. -/
theorem countP_filter_not {α : Type} (p : α → Prop) [DecidablePred p] (l : List α) :
    (l.filter (fun a => ¬ p a)).countP (fun a => p a) = 0 := by
  rw [List.countP_eq_zero]
  intro a ha
  have h2 := (List.mem_filter.mp ha).2
  simp only [decide_eq_true_eq] at h2 ⊢
  exact h2

/-- Filtering twice by one predicate is filtering once. -/
theorem filter_filter_self {α : Type} (p : α → Bool) (l : List α) :
    (l.filter p).filter p = l.filter p := by
  induction l with
  | nil => rfl
  | cons a t ih => cases h : p a <;> simp [List.filter_cons, h, ih]

/-- `countP` as the complement of the length kept by the negated filter. -/
theorem countP_eq_sub_filter_not {α : Type} (p : α → Prop) [DecidablePred p] (l : List α) :
    l.countP (fun a => p a) = l.length - (l.filter (fun a => ¬ p a)).length := by
  have h1 := countP_add_countP_not p l
  have h2 : (l.filter (fun a => ¬ p a)).length = l.countP (fun a => ¬ p a) :=
    (List.countP_eq_length_filter _ _).symm
  omega

/-- **C4**: `deleteSession` removes every result, progress and session row of
the given id (their counts drop to zero, so `getResultCount` then returns 0),
returns the number of deleted result rows, a second call is a no-op returning
zero deletions, and on an id with no rows at all the call is already a no-op
returning zero. -/
theorem claim_C4_deleteSession (db : DB) (sid : String) :
    getResultCount (deleteSession db sid).1 sid = 0 ∧
    (deleteSession db sid).2 = getResultCount db sid ∧
    (deleteSession db sid).1.progress.countP (fun p => p.session_id = sid) = 0 ∧
    (deleteSession db sid).1.sessions.countP (fun s => s.id = sid) = 0 ∧
    deleteSession (deleteSession db sid).1 sid = ((deleteSession db sid).1, 0) ∧
    (getResultCount db sid = 0 →
      db.progress.countP (fun p => p.session_id = sid) = 0 →
      db.sessions.countP (fun s => s.id = sid) = 0 →
      deleteSession db sid = (db, 0)) := by
  refine ⟨?_, ?_, ?_, ?_, ?_, ?_⟩
  · exact countP_filter_not (fun r => r.session_id = sid) db.results
  · rfl
  · exact countP_filter_not (fun p => p.session_id = sid) db.progress
  · exact countP_filter_not (fun s => s.id = sid) db.sessions
  · simp only [deleteSession, Prod.mk.injEq, DB.mk.injEq]
    refine ⟨⟨?_, ?_, ?_⟩, ?_⟩
    · exact filter_filter_self _ db.sessions
    · exact filter_filter_self _ db.results
    · exact filter_filter_self _ db.progress
    · exact countP_filter_not (fun r => r.session_id = sid) db.results
  · intro h1 h2 h3
    simp only [getResultCount] at h1
    have hs : db.sessions.filter (fun s => ¬ s.id = sid) = db.sessions := by
      rw [List.filter_eq_self]
      intro s hsm
      have := List.countP_eq_zero.mp h3 s hsm
      simp_all
    have hr : db.results.filter (fun r => ¬ r.session_id = sid) = db.results := by
      rw [List.filter_eq_self]
      intro r hrm
      have := List.countP_eq_zero.mp h1 r hrm
      simp_all
    have hp : db.progress.filter (fun p => ¬ p.session_id = sid) = db.progress := by
      rw [List.filter_eq_self]
      intro p hpm
      have := List.countP_eq_zero.mp h2 p hpm
      simp_all
    simp only [deleteSession, hs, hr, hp, h1]

/-- **C4** witness: deleting `S1` from the concrete database empties its
result count and reports both deleted rows; deleting the unknown `S3` is a
no-op reporting zero. -/
theorem claim_C4_witness :
    getResultCount (deleteSession dbC4 "S1").1 "S1" = 0 ∧
    (deleteSession dbC4 "S1").2 = 2 ∧
    deleteSession dbC4 "S3" = (dbC4, 0) := by
  have h := claim_C4_deleteSession dbC4 "S1"
  have h3 := claim_C4_deleteSession dbC4 "S3"
  refine ⟨h.1, ?_, h3.2.2.2.2.2 rfl rfl rfl⟩
  rw [h.2.1]
  rfl

/-! ## C10 : channels with no declared rate limit are never throttled -/

/-- **C10**: for an operation name with no entry in the limiter's table,
`checkLimit` returns `true` without touching the state, and any sequence of
calls at any instants is allowed with the state unchanged throughout. -/
theorem claim_C10_noLimit (ch : String) (h : defaultLimits ch = none) :
    (∀ (st : RLState) (now : Int), checkLimit defaultLimits st now ch = (st, .allow)) ∧
    (∀ (st : RLState) (times : List Int),
        runChecks defaultLimits st ch times = (st, times.map fun _ => .allow)) := by
  have hstep : ∀ (st : RLState) (now : Int),
      checkLimit defaultLimits st now ch = (st, .allow) := by
    intro st now
    simp [checkLimit, h]
  refine ⟨hstep, ?_⟩
  intro st times
  induction times generalizing st with
  | nil => rfl
  | cons t ts ih => simp [runChecks, hstep, ih]

/-- **C10** witness: three rapid calls on an undeclared channel are all
allowed and leave the limiter state untouched. -/
theorem claim_C10_witness :
    runChecks defaultLimits ⟨[]⟩ "get-results" [1, 2, 3] = (⟨[]⟩, [.allow, .allow, .allow]) :=
  (claim_C10_noLimit "get-results" rfl).2 ⟨[]⟩ [1, 2, 3]

/-! ## C2 : cleanupOldSessions -/

/-- **C2**: after `cleanupOldSessions(daysToKeep)` no remaining session starts
strictly before the cutoff `now − daysToKeep` days; every result row and
progress row whose session was deleted (started before the cutoff) is gone;
and the returned report carries the numbers of session rows and result rows
that were deleted. -/
theorem claim_C2_cleanup (db : DB) (now daysToKeep : Int) :
    (∀ s ∈ (cleanupOldSessions db now daysToKeep).1.sessions,
        ¬ s.started_at < now - daysToKeep * dayMs) ∧
    (∀ r ∈ db.results,
        (∃ s ∈ db.sessions, s.id = r.session_id ∧ s.started_at < now - daysToKeep * dayMs) →
        r ∉ (cleanupOldSessions db now daysToKeep).1.results) ∧
    (∀ p ∈ db.progress,
        (∃ s ∈ db.sessions, s.id = p.session_id ∧ s.started_at < now - daysToKeep * dayMs) →
        p ∉ (cleanupOldSessions db now daysToKeep).1.progress) ∧
    (cleanupOldSessions db now daysToKeep).2.deletedSessions
        = db.sessions.length - (cleanupOldSessions db now daysToKeep).1.sessions.length ∧
    (cleanupOldSessions db now daysToKeep).2.deletedResults
        = db.results.length - (cleanupOldSessions db now daysToKeep).1.results.length := by
  refine ⟨?_, ?_, ?_, ?_, ?_⟩
  · intro s hs
    have := (List.mem_filter.mp hs).2
    simp only [decide_eq_true_eq] at this
    exact this
  · intro r _ hex hcontra
    have hpred := (List.mem_filter.mp hcontra).2
    simp only [decide_eq_true_eq] at hpred
    apply hpred
    obtain ⟨s, hsmem, hsid, hold⟩ := hex
    exact List.mem_map.mpr ⟨s, List.mem_filter.mpr ⟨hsmem, by simp [hold]⟩, hsid⟩
  · intro p _ hex hcontra
    have hpred := (List.mem_filter.mp hcontra).2
    simp only [decide_eq_true_eq] at hpred
    apply hpred
    obtain ⟨s, hsmem, hsid, hold⟩ := hex
    exact List.mem_map.mpr ⟨s, List.mem_filter.mpr ⟨hsmem, by simp [hold]⟩, hsid⟩
  · exact countP_eq_sub_filter_not
      (fun s => s.started_at < now - daysToKeep * dayMs) db.sessions
  · exact countP_eq_sub_filter_not
      (fun r => r.session_id ∈
        ((db.sessions.filter
          (fun s => s.started_at < now - daysToKeep * dayMs)).map (fun s => s.id)))
      db.results

/-- **C2** witness: with an old and a recent session, the old session's result
row is gone after a 3-day cleanup, the recent session survives, and the report
counts one deleted session and one deleted result. -/
theorem claim_C2_witness :
    rowOld ∉ (cleanupOldSessions dbC2 1000000000 3).1.results ∧
    ¬ newSession.started_at < 1000000000 - 3 * dayMs ∧
    (cleanupOldSessions dbC2 1000000000 3).2 = ⟨1, 1⟩ := by
  have h := claim_C2_cleanup dbC2 1000000000 3
  refine ⟨?_, ?_, ?_⟩
  · exact h.2.1 rowOld (List.Mem.head _)
      ⟨oldSession, List.Mem.head _, rfl, by decide⟩
  · exact h.1 newSession (by decide)
  · rfl

/-! ## C6 : path validators -/

/-- **C6** counterexample: both validators *accept* (a) a path containing a
`..` traversal segment that normalizes back inside an allow-listed directory,
and (b) a path whose resolved location lies outside every allow-listed
directory subtree but shares an allow-listed directory as a string prefix
(`/home/u/DocumentsSecret` vs `/home/u/Documents`).  So the claim's rejection
guarantee fails as stated. -/
theorem claim_C6_counterexample :
    (hasTraversalSegment "/home/u/Documents/sub/../data.csv" = true ∧
      isErr (validateFilePath envC6 "/home/u/Documents/sub/../data.csv" [".csv"]) = false) ∧
    ((fileAllowedDirs envC6).all
        (fun d => ! underDir envC6 d "/home/u/DocumentsSecret/data.csv") = true ∧
      isErr (validateFilePath envC6 "/home/u/DocumentsSecret/data.csv" [".csv"]) = false) ∧
    (hasTraversalSegment "/home/u/Documents/sub/../out.xlsx" = true ∧
      isErr (validateExportPath envC6 "/home/u/Documents/sub/../out.xlsx") = false) ∧
    ((exportAllowedDirs envC6).all
        (fun d => ! underDir envC6 d "/home/u/DocumentsSecret/out.xlsx") = true ∧
      isErr (validateExportPath envC6 "/home/u/DocumentsSecret/out.xlsx") = false) := by
  decide

/-- **C6** amended: both validators reject any path whose *normalized* form
still contains `..` as a substring, and any path whose resolved absolute path
does not extend, as a string prefix, the resolved form of one of the
respective allow-listed directories — and this regardless of whether the
extension is correct (a wrong extension is itself rejected earlier). -/
theorem claim_C6_amended (env : PathEnv) (p : String) (exts : List String) :
    (strIncludes (pathNormalize p) ".." = true →
      isErr (validateFilePath env p exts) = true) ∧
    ((fileAllowedDirs env).any
        (fun dir => strStartsWith (pathResolve env.cwd (pathNormalize p))
          (pathResolve env.cwd dir)) = false →
      isErr (validateFilePath env p exts) = true) ∧
    (strIncludes (pathNormalize p) ".." = true →
      isErr (validateExportPath env p) = true) ∧
    ((exportAllowedDirs env).any
        (fun dir => strStartsWith (pathResolve env.cwd (pathNormalize p))
          (pathResolve env.cwd dir)) = false →
      isErr (validateExportPath env p) = true) := by
  refine ⟨?_, ?_, ?_, ?_⟩ <;> intro h <;>
    simp only [validateFilePath, validateExportPath] <;>
    split_ifs <;> simp_all [isErr]

/-- **C6** witness: the amended theorem rejects a leading-traversal path (its
normalization keeps the `..`) and a path resolving outside every allow-listed
directory. -/
theorem claim_C6_witness :
    isErr (validateFilePath envC6 "../../etc/passwd" [".csv"]) = true ∧
    isErr (validateExportPath envC6 "/etc/out.xlsx") = true :=
  ⟨(claim_C6_amended envC6 "../../etc/passwd" [".csv"]).1 (by decide),
   (claim_C6_amended envC6 "/etc/out.xlsx" [".csv"]).2.2.2 (by decide)⟩

/-! ## C7 : validateObject returns an allow-listed payload -/

/-- Every key of a successfully validated payload is a schema key. -/
theorem validateObject_keys_sub (s : Schema) :
    ∀ (obj out : List (String × JValue)), validateObject obj s = .ok out →
      ∀ k, k ∈ out.map Prod.fst → schemaHasKey s k = true := by
  induction s with
  | nil =>
    intro obj out hvo k hk
    simp only [validateObject] at hvo
    cases hvo
    simp at hk
  | cons key type required maxLength minB maxB hasProps props custom rest ihp ihr =>
    intro obj out hvo k hk
    simp only [validateObject] at hvo
    split at hvo
    · split at hvo
      · cases hvo
      · have := ihr obj out hvo k hk
        simp [schemaHasKey, this]
    · split at hvo
      · cases hvo
      · split at hvo
        · split at hvo
          · split at hvo
            · cases hvo
            · split at hvo
              · cases hvo
              · cases hvo
                simp only [List.map_cons, List.mem_cons] at hk
                rcases hk with hk | hk
                · simp [schemaHasKey, hk]
                · have := ihr obj _ (by assumption) k hk
                  simp [schemaHasKey, this]
          · cases hvo
        · split at hvo
          · cases hvo
          · split at hvo
            · cases hvo
            · cases hvo
              simp only [List.map_cons, List.mem_cons] at hk
              rcases hk with hk | hk
              · simp [schemaHasKey, hk]
              · have := ihr obj _ (by assumption) k hk
                simp [schemaHasKey, this]

/-- A payload field whose key the schema does not declare is ignored: it never
causes a failure and never appears in the output. -/
theorem validateObject_ignores_unknown (s : Schema) :
    ∀ (obj : List (String × JValue)) (k : String) (v : JValue),
      schemaHasKey s k = false →
      validateObject ((k, v) :: obj) s = validateObject obj s := by
  induction s with
  | nil => intro obj k v _; rfl
  | cons key type required maxLength minB maxB hasProps props custom rest ihp ihr =>
    intro obj k v h
    simp only [schemaHasKey, Bool.or_eq_false_iff, decide_eq_false_iff_not] at h
    obtain ⟨hne, h2⟩ := h
    have hget : jGet ((k, v) :: obj) key = jGet obj key := by
      simp [jGet, jLookup, hne]
    simp only [validateObject]
    rw [hget, ihr obj k v h2]

/-- **C7**: for every schema, a payload that passes validation comes back
containing only schema-declared fields, and an unknown field in the input
payload neither appears in the output nor causes a failure (validation is
unchanged by its presence). -/
theorem claim_C7_allowlist :
    (∀ (s : Schema) (obj out : List (String × JValue)),
        validateObject obj s = .ok out →
        ∀ k, k ∈ out.map Prod.fst → schemaHasKey s k = true) ∧
    (∀ (s : Schema) (obj : List (String × JValue)) (k : String) (v : JValue),
        schemaHasKey s k = false →
        validateObject ((k, v) :: obj) s = validateObject obj s) :=
  ⟨validateObject_keys_sub, validateObject_ignores_unknown⟩

/-- **C7** witness: on the one-field schema, the accepted key is a schema key,
and prepending an unknown field leaves validation untouched. -/
theorem claim_C7_witness :
    schemaHasKey exampleSchema "a" = true ∧
    validateObject [("unknown", .str "x"), ("a", .num 3)] exampleSchema =
      validateObject [("a", .num 3)] exampleSchema := by
  refine ⟨?_, ?_⟩
  · exact claim_C7_allowlist.1 exampleSchema [("a", .num 3)] [("a", .num 3)] rfl "a" (by simp)
  · exact claim_C7_allowlist.2 exampleSchema [("a", .num 3)] "unknown" (.str "x") rfl

/-! ## C5 : rate-limit check for declared operations -/

/-- `foldl min` of a list starting from `t` is `t` or an element. -/
theorem foldl_min_mem (ts : List Int) (t : Int) :
    ts.foldl min t = t ∨ ts.foldl min t ∈ ts := by
  induction ts generalizing t with
  | nil => left; rfl
  | cons x xs ih =>
    rcases ih (min t x) with h | h
    · rcases min_choice t x with hm | hm
      · left; rw [List.foldl_cons, h, hm]
      · right; rw [List.foldl_cons, h, hm]; exact List.mem_cons_self x xs
    · right; exact List.mem_cons_of_mem x h

/-- `Math.min` of a nonempty list is an element of it. -/
theorem jsMinList_mem (l : List Int) (h : l ≠ []) : jsMinList l ∈ l := by
  match l with
  | [] => exact absurd rfl h
  | t :: ts =>
    rcases foldl_min_mem ts t with hm | hm
    · rw [jsMinList, hm]; exact List.mem_cons_self t ts
    · exact List.mem_cons_of_mem t hm

/-- Every declared limit entry has a 60000 ms window and a positive ceiling. -/
theorem defaultLimits_facts (ch : String) (cfg : LimitCfg)
    (h : defaultLimits ch = some cfg) :
    cfg.windowMs = 60000 ∧ 1 ≤ cfg.maxCalls := by
  unfold defaultLimits at h
  split_ifs at h <;> injection h with h2 <;> subst h2 <;> exact ⟨rfl, by decide⟩

/-- **C5**: for each operation with a declared ceiling and window, `checkLimit`
discards the call timestamps that have fallen out of the window; if the
remaining count reaches the ceiling it rejects with a retry-after of more than
0 and at most the window length in seconds, otherwise it records `now` and
allows the call.  In particular, with ceiling 1 and a 60 s window, a second
call within the window is rejected and a call after the window elapses is
allowed again. -/
theorem claim_C5_rateLimit :
    (∀ (ch : String) (cfg : LimitCfg) (st : RLState) (now : Int),
        defaultLimits ch = some cfg →
        (∀ t ∈ getCalls st ch, t ≤ now) →
        checkLimitSpec ch cfg st now) ∧
    (∀ t0 t1 t2 : Int, t0 ≤ t1 → t1 - t0 < 60000 → 60000 ≤ t2 - t0 →
        scanScenario t0 t1 t2) := by
  constructor
  · intro ch cfg st now hcfg hle
    obtain ⟨hw, hm⟩ := defaultLimits_facts ch cfg hcfg
    constructor
    · intro hlen
      simp only [checkLimit, hcfg]
      rw [if_neg (by omega)]
    · intro hlen
      have hne : ((getCalls st ch).filter (fun t => now - t < cfg.windowMs)) ≠ [] := by
        intro hnil
        rw [hnil] at hlen
        simp at hlen
        omega
      have hmem := jsMinList_mem _ hne
      have hfil : now - jsMinList ((getCalls st ch).filter
          (fun t => now - t < cfg.windowMs)) < cfg.windowMs := by
        have := List.of_mem_filter hmem
        simpa using this
      have hnow : jsMinList ((getCalls st ch).filter
          (fun t => now - t < cfg.windowMs)) ≤ now :=
        hle _ (List.mem_of_mem_filter hmem)
      refine ⟨(cfg.windowMs - (now - jsMinList ((getCalls st ch).filter
          (fun t => now - t < cfg.windowMs))) + 999) / 1000, ?_, ?_, ?_⟩
      · simp only [checkLimit, hcfg]
        rw [if_pos hlen]
      · have h1000 : (0:Int) < 1000 := by decide
        have h1 : (1:Int) ≤ (cfg.windowMs - (now - jsMinList ((getCalls st ch).filter
            (fun t => now - t < cfg.windowMs))) + 999) / 1000 := by
          rw [Int.le_ediv_iff_mul_le h1000]
          omega
        omega
      · have h1000 : (0:Int) < 1000 := by decide
        have hb : (cfg.windowMs - (now - jsMinList ((getCalls st ch).filter
            (fun t => now - t < cfg.windowMs))) + 999) ≤ 60999 := by omega
        have hdle := Int.ediv_le_ediv h1000 hb
        have h60 : (60999:Int) / 1000 = 60 := by decide
        have hw60 : cfg.windowMs / 1000 = 60 := by rw [hw]; decide
        omega
  · intro t0 t1 t2 h01 h1w h2w
    have s1 : checkLimit defaultLimits ⟨[]⟩ t0 "start-scan"
        = (⟨[("start-scan", [t0])]⟩, .allow) := by
      simp [checkLimit, defaultLimits, getCalls, setCalls]
    have s2 : checkLimit defaultLimits ⟨[("start-scan", [t0])]⟩ t1 "start-scan"
        = (⟨[("start-scan", [t0])]⟩, .reject ((60000 - (t1 - t0) + 999) / 1000)) := by
      simp [checkLimit, defaultLimits, getCalls, setCalls, jsMinList, h1w]
    have s3 : checkLimit defaultLimits ⟨[("start-scan", [t0])]⟩ t2 "start-scan"
        = (⟨[("start-scan", [t2])]⟩, .allow) := by
      have hfil : ¬ (t2 - t0 < 60000) := by omega
      simp [checkLimit, defaultLimits, getCalls, setCalls, hfil]
    refine ⟨by rw [s1], ⟨(60000 - (t1 - t0) + 999) / 1000, ?_, ?_, ?_⟩, ?_⟩
    · rw [s1]
      simp only []
      rw [s2]
    · have h1000 : (0:Int) < 1000 := by decide
      have h1 : (1:Int) ≤ (60000 - (t1 - t0) + 999) / 1000 := by
        rw [Int.le_ediv_iff_mul_le h1000]
        omega
      omega
    · have h1000 : (0:Int) < 1000 := by decide
      have hb : (60000 - (t1 - t0) + 999) ≤ 60999 := by omega
      have hdle := Int.ediv_le_ediv h1000 hb
      have h60 : (60999:Int) / 1000 = 60 := by decide
      omega
    · rw [s1]
      simp only []
      rw [s2]
      simp only []
      rw [s3]

/-- **C5** witness: the spec holds at a fresh state for `start-scan`, and the
three-call scenario at instants 0, 1000 and 60000. -/
theorem claim_C5_witness :
    checkLimitSpec "start-scan" ⟨1, 60000⟩ ⟨[]⟩ 0 ∧ scanScenario 0 1000 60000 :=
  ⟨claim_C5_rateLimit.1 "start-scan" ⟨1, 60000⟩ ⟨[]⟩ 0 rfl
      (by intro t ht; simp [getCalls] at ht),
   claim_C5_rateLimit.2 0 1000 60000 (by decide) (by decide) (by decide)⟩

/-! ## C3 : keepLatestScans -/

/-- Insertion keeps the list a permutation. -/
theorem insertByStart_perm (s : Session) (l : List Session) :
    List.Perm (insertByStart s l) (s :: l) := by
  induction l with
  | nil => exact List.Perm.refl _
  | cons t ts ih =>
    by_cases h : t.started_at ≤ s.started_at
    · simp only [insertByStart, if_pos h]
      exact List.Perm.refl _
    · simp only [insertByStart, if_neg h]
      exact (ih.cons t).trans (List.Perm.swap s t ts)

/-- The sort is a permutation of its input. -/
theorem sortByStartDesc_perm (l : List Session) :
    List.Perm (sortByStartDesc l) l := by
  induction l with
  | nil => exact List.Perm.refl _
  | cons s ss ih => exact (insertByStart_perm s (sortByStartDesc ss)).trans (ih.cons s)

/-- Insertion preserves descending order on `started_at`. -/
theorem insertByStart_pairwise (s : Session) (l : List Session)
    (h : l.Pairwise (fun a b => b.started_at ≤ a.started_at)) :
    (insertByStart s l).Pairwise (fun a b => b.started_at ≤ a.started_at) := by
  induction l with
  | nil => simp [insertByStart]
  | cons t ts ih =>
    rcases List.pairwise_cons.mp h with ⟨hhead, htail⟩
    by_cases hc : t.started_at ≤ s.started_at
    · simp only [insertByStart, if_pos hc]
      refine List.pairwise_cons.mpr ⟨?_, h⟩
      intro b hb
      rcases List.mem_cons.mp hb with rfl | hb2
      · exact hc
      · exact le_trans (hhead b hb2) hc
    · simp only [insertByStart, if_neg hc]
      refine List.pairwise_cons.mpr ⟨?_, ih htail⟩
      intro b hb
      rcases List.mem_cons.mp ((insertByStart_perm s ts).mem_iff.mp hb) with rfl | hb2
      · exact le_of_lt (lt_of_not_le hc)
      · exact hhead b hb2

/-- The sorted list is descending on `started_at`. -/
theorem sortByStartDesc_pairwise (l : List Session) :
    (sortByStartDesc l).Pairwise (fun a b => b.started_at ≤ a.started_at) := by
  induction l with
  | nil => simp [sortByStartDesc]
  | cons s ss ih => exact insertByStart_pairwise s _ ih

/-- With pairwise-distinct timestamps the sorted list is strictly
descending. -/
theorem sortByStartDesc_strict (l : List Session)
    (hdist : l.Pairwise (fun a b => a.started_at ≠ b.started_at)) :
    (sortByStartDesc l).Pairwise (fun a b => b.started_at < a.started_at) := by
  have hd2 : (sortByStartDesc l).Pairwise (fun a b => a.started_at ≠ b.started_at) :=
    ((sortByStartDesc_perm l).pairwise_iff (fun h => h.symm)).mpr hdist
  exact ((sortByStartDesc_pairwise l).and hd2).imp
    (fun h => lt_of_le_of_ne h.1 h.2.symm)

/-- In a strictly descending list, the element at index `k` has exactly `k`
strictly newer elements. -/
theorem countP_gt_of_get (l : List Session) (k : Nat) (b : Session)
    (hp : l.Pairwise (fun a b => b.started_at < a.started_at))
    (hget : l.get? k = some b) :
    l.countP (fun t => b.started_at < t.started_at) = k := by
  induction l generalizing k with
  | nil => simp at hget
  | cons h t ih =>
    rcases List.pairwise_cons.mp hp with ⟨hhead, htail⟩
    cases k with
    | zero =>
      simp only [List.get?] at hget
      cases hget
      rw [List.countP_cons, decide_eq_false (lt_irrefl _), if_neg (by decide),
        List.countP_eq_zero.mpr]
      intro a ha
      have := hhead a ha
      simp only [decide_eq_true_eq]
      omega
    | succ k =>
      simp only [List.get?] at hget
      have hbmem : b ∈ t := List.get?_mem hget
      have hbh : b.started_at < h.started_at := hhead b hbmem
      have hrec := ih k htail hget
      rw [List.countP_cons, decide_eq_true hbh, if_pos rfl, hrec]

/-- In a strictly descending list, the element at index `k` has exactly
`length − (k+1)` strictly older elements. -/
theorem countP_lt_of_get (l : List Session) (k : Nat) (b : Session)
    (hp : l.Pairwise (fun a b => b.started_at < a.started_at))
    (hget : l.get? k = some b) :
    l.countP (fun t => t.started_at < b.started_at) = l.length - (k + 1) := by
  induction l generalizing k with
  | nil => simp at hget
  | cons h t ih =>
    rcases List.pairwise_cons.mp hp with ⟨hhead, htail⟩
    cases k with
    | zero =>
      simp only [List.get?] at hget
      cases hget
      have hfull : t.countP (fun x => x.started_at < b.started_at) = t.length :=
        List.countP_eq_length.mpr (fun a ha => decide_eq_true (hhead a ha))
      rw [List.countP_cons, decide_eq_false (lt_irrefl _), if_neg (by decide), hfull]
      simp
    | succ k =>
      simp only [List.get?] at hget
      have hbmem : b ∈ t := List.get?_mem hget
      have hbh : b.started_at < h.started_at := hhead b hbmem
      have hrec := ih k htail hget
      obtain ⟨hk, -⟩ := List.get?_eq_some.mp hget
      rw [List.countP_cons,
        decide_eq_false (show ¬ h.started_at < b.started_at from by omega),
        if_neg (by decide), hrec]
      simp only [List.length_cons]
      omega

/-- **C3** counterexample: three sessions sharing one start timestamp, keep
the latest 2 — the boundary's timestamp ties with everything, the strict
deletion removes nothing, and 3 ≠ min 2 3 sessions remain. -/
theorem claim_C3_counterexample :
    ¬ ((keepLatestScans dbTies 2).1.sessions.length = min 2 dbTies.sessions.length) := by
  decide

/-- **C3** amended: when the sessions' start timestamps are pairwise distinct
and `count ≥ 1`, `keepLatestScans(count)` leaves exactly
`min count totalSessions` sessions, the retained sessions are exactly those
with fewer than `count` strictly more recent sessions (the `count` most
recent), and with fewer than `count` sessions the call is a no-op reporting
zero deletions. -/
theorem claim_C3_amended (db : DB) (count : Nat)
    (hdist : db.sessions.Pairwise (fun a b => a.started_at ≠ b.started_at))
    (hcount : 1 ≤ count) :
    (keepLatestScans db count).1.sessions.length = min count db.sessions.length ∧
    (∀ s ∈ db.sessions,
        (s ∈ (keepLatestScans db count).1.sessions ↔
          db.sessions.countP (fun t => s.started_at < t.started_at) < count)) ∧
    (db.sessions.length < count → keepLatestScans db count = (db, ⟨0, 0⟩)) := by
  have hperm := sortByStartDesc_perm db.sessions
  have hlen : (sortByStartDesc db.sessions).length = db.sessions.length := hperm.length_eq
  cases hget : (sortByStartDesc db.sessions).get? (count - 1) with
  | none =>
    have hlethan : (sortByStartDesc db.sessions).length ≤ count - 1 :=
      List.get?_eq_none.mp hget
    refine ⟨?_, ?_, fun _ => ?_⟩
    · simp only [keepLatestScans, hget]
      omega
    · intro s hs
      simp only [keepLatestScans, hget]
      constructor
      · intro _
        have hc : db.sessions.countP (fun t => s.started_at < t.started_at)
            ≤ db.sessions.length := List.countP_le_length _
        omega
      · intro _
        exact hs
    · simp only [keepLatestScans, hget]
  | some b =>
    obtain ⟨hklt, -⟩ := List.get?_eq_some.mp hget
    have hcle : count ≤ db.sessions.length := by omega
    have hstrict := sortByStartDesc_strict db.sessions hdist
    have hA := countP_gt_of_get _ _ _ hstrict hget
    have hB := countP_lt_of_get _ _ _ hstrict hget
    have hA' : db.sessions.countP (fun t => b.started_at < t.started_at) = count - 1 :=
      (hperm.countP_eq _).symm.trans hA
    have hB0 := (hperm.countP_eq
      (fun t => decide (t.started_at < b.started_at))).symm.trans hB
    have hB' : db.sessions.countP (fun t => t.started_at < b.started_at)
        = db.sessions.length - count := by
      rw [hB0, hlen]
      omega
    refine ⟨?_, ?_, fun hlt => absurd hlt (by omega)⟩
    · simp only [keepLatestScans, hget]
      have h1 := countP_add_countP_not
        (fun t : Session => t.started_at < b.started_at) db.sessions
      have h2 : (db.sessions.filter (fun t => ¬ t.started_at < b.started_at)).length
          = db.sessions.countP (fun t => ¬ t.started_at < b.started_at) :=
        (List.countP_eq_length_filter _ _).symm
      omega
    · intro s hs
      simp only [keepLatestScans, hget]
      rw [List.mem_filter]
      constructor
      · rintro ⟨-, hpred⟩
        simp only [decide_eq_true_eq] at hpred
        have hble : b.started_at ≤ s.started_at := by omega
        have hmono : db.sessions.countP (fun t => s.started_at < t.started_at)
            ≤ db.sessions.countP (fun t => b.started_at < t.started_at) :=
          List.countP_mono_left
            (fun t _ h => decide_eq_true
              (lt_of_le_of_lt hble (of_decide_eq_true h)))
        omega
      · intro hcnt
        refine ⟨hs, ?_⟩
        simp only [decide_eq_true_eq]
        intro hlt
        have hmono : db.sessions.countP (fun t => ¬ t.started_at < b.started_at)
            ≤ db.sessions.countP (fun t => s.started_at < t.started_at) :=
          List.countP_mono_left
            (fun t _ h => decide_eq_true
              (lt_of_lt_of_le hlt (le_of_not_lt (of_decide_eq_true h))))
        have h1 := countP_add_countP_not
          (fun t : Session => t.started_at < b.started_at) db.sessions
        omega

/-- **C3** witness: three sessions with distinct timestamps, keeping 2 leaves
exactly 2, and the most recent session is retained (it has fewer than 2 newer
sessions). -/
theorem claim_C3_witness :
    (keepLatestScans dbDistinct 2).1.sessions.length = min 2 dbDistinct.sessions.length ∧
    (sessC ∈ (keepLatestScans dbDistinct 2).1.sessions ↔
      dbDistinct.sessions.countP (fun t => sessC.started_at < t.started_at) < 2) := by
  have h := claim_C3_amended dbDistinct 2 (by decide) (by decide)
  exact ⟨h.1, h.2.1 sessC (by decide)⟩
